import Mathlib

/-!
Verification of the bluemon Bluetooth monitoring service.

The definitions below are a shallow embedding of the Python source:
  - bluemon.py            : runtime configuration (get_config / update_config)
  - module/config.py      : the AppConfig record
  - module/bluetooth_scanner.py : scan-pass deduplication, scheduler lifecycle,
                                  and the timed scan loop
  - module/store.py       : the sqlite-backed event store and its queries

Modelling conventions:
  - Timestamps are modelled as integers.  The store writes ISO-8601 text
    timestamps and compares them with sqlite's BINARY text collation, which
    agrees with chronological order on the well-formed timestamps the
    application writes, so integer comparison is a faithful model.
  - sqlite rowids (AUTOINCREMENT primary key) are modelled as a `nextId`
    counter carried by the store; rows receive strictly increasing ids in
    insertion order and the counter survives a bulk delete, as AUTOINCREMENT
    does.
  - sqlite query results are modelled with Mathlib's stable `insertionSort`:
    an ORDER BY that scans an index, or feeds sqlite's stable sorter, yields
    the documented ordering on its sort keys, with the underlying scan order
    (rowid order for a table scan, key order for an index scan) breaking the
    remaining ties.  Each query's comparison relation states the complete
    resulting order and is justified at its definition.
  - Python dicts are modelled as association lists in key-insertion order.
  - A Python function that can raise is modelled with `Option`/`Except`.
-/

namespace Bluemon

/-! ## Runtime configuration (module/config.py and bluemon.py) -/

/-- The AppConfig dataclass of module/config.py. -/
structure AppConfig where
  scan_duration : Int
  scan_interval : Int
  sleep_duration : Int
  db_path : String
  host : String
  port : Int
deriving DecidableEq, Repr

/-- The dict returned by get_config in bluemon.py: the three cadence fields. -/
structure CadenceView where
  scan_duration : Int
  scan_interval : Int
  sleep_duration : Int
deriving DecidableEq, Repr

/-- get_config (bluemon.py, lines 75-81). -/
def get_config (c : AppConfig) : CadenceView :=
  { scan_duration := c.scan_duration
    scan_interval := c.scan_interval
    sleep_duration := c.sleep_duration }

/-- A JSON value arriving in a config update payload, as seen by Python's
int() coercion: either something int() accepts (modelled by the integer it
yields) or something it rejects, on which int() raises ValueError. -/
inductive PyVal where
  | int (n : Int)
  | nonNumeric (s : String)
deriving DecidableEq, Repr

/-- Python int() on a payload value: `none` models a raised ValueError. -/
def pyInt : PyVal → Option Int
  | .int n => some n
  | .nonNumeric _ => none

/-- A partial config-update payload: the dict passed to update_config.
Each field is present or absent (dict.get with a default). -/
structure ConfigPayload where
  scan_duration : Option PyVal := none
  scan_interval : Option PyVal := none
  sleep_duration : Option PyVal := none
deriving DecidableEq, Repr

/-- update_config (bluemon.py, lines 84-104).  Each cadence field is read
from the payload with the current value as default and passed through int();
a ValueError (none) propagates before the merge, leaving the previous config
active.  On success the merged config keeps db_path, host and port from the
previous config, becomes the active config, and get_config of it is
returned to the caller.  There is no range check of any kind. -/
def update_config (config : AppConfig) (new_cfg : ConfigPayload) :
    Option (AppConfig × CadenceView) :=
  match pyInt (new_cfg.scan_duration.getD (.int config.scan_duration)),
        pyInt (new_cfg.scan_interval.getD (.int config.scan_interval)),
        pyInt (new_cfg.sleep_duration.getD (.int config.sleep_duration)) with
  | some sd, some si, some sl =>
      let merged : AppConfig :=
        { scan_duration := sd
          scan_interval := si
          sleep_duration := sl
          db_path := config.db_path
          host := config.host
          port := config.port }
      some (merged, get_config merged)
  | _, _, _ => none

/-- The default AppConfig of module/config.py. -/
def defaultConfig : AppConfig :=
  { scan_duration := 5
    scan_interval := 3
    sleep_duration := 1
    db_path := "bluemon.sqlite"
    host := "0.0.0.0"
    port := 8080 }

/-- A payload carrying scan_duration = -1 and nothing else. -/
def negPayload : ConfigPayload := { scan_duration := some (.int (-1)) }

/-- C1 counterexample: a config update carrying scan_duration = -1 is not
rejected.  update_config merges it, the active config changes (a subsequent
get_config reports -1), and the caller receives a success value, not a
validation failure. -/
theorem C1_counterexample :
    update_config defaultConfig negPayload =
      some ({ defaultConfig with scan_duration := -1 },
            { scan_duration := -1, scan_interval := 3, sleep_duration := 1 }) ∧
    ({ defaultConfig with scan_duration := -1 } : AppConfig) ≠ defaultConfig := by
  refine ⟨rfl, ?_⟩
  decide

/-- C1 as amended: update_config performs no range validation.  A numeric
cadence value, including a non-positive one such as scan_duration = -1, is
merged and becomes the active config, observable via get_config; only a
non-numeric value fails, with int() raising before the merge so the previous
config stays in effect, and that failure is a propagated exception rather
than a validation result. -/
theorem C1_amended (cfg : AppConfig) (v : Int) (hv : v ≤ 0) :
    (update_config cfg { scan_duration := some (.int v) } =
      some ({ cfg with scan_duration := v },
            get_config { cfg with scan_duration := v })) ∧
    (∀ s, update_config cfg { scan_duration := some (.nonNumeric s) } = none) := by
  constructor
  · simp [update_config, pyInt, Option.getD]
  · intro s
    simp [update_config, pyInt, Option.getD]

/-- C1 amended, witnessed at the default config and scan_duration = -1. -/
theorem C1_witness :
    (update_config defaultConfig { scan_duration := some (.int (-1)) } =
      some ({ defaultConfig with scan_duration := -1 },
            get_config { defaultConfig with scan_duration := -1 })) ∧
    (∀ s, update_config defaultConfig
        { scan_duration := some (.nonNumeric s) } = none) :=
  C1_amended defaultConfig (-1) (by decide)

/-- C10: a successful update_config changes at most the three cadence
fields: the db_path, host and port of the merged config always equal those
of the previous config, whatever the payload contains. -/
theorem C10_frame (cfg : AppConfig) (p : ConfigPayload)
    (merged : AppConfig) (view : CadenceView)
    (h : update_config cfg p = some (merged, view)) :
    merged.db_path = cfg.db_path ∧ merged.host = cfg.host ∧
      merged.port = cfg.port := by
  unfold update_config at h
  rcases h1 : pyInt (p.scan_duration.getD (.int cfg.scan_duration)) with _ | sd <;>
    rcases h2 : pyInt (p.scan_interval.getD (.int cfg.scan_interval)) with _ | si <;>
      rcases h3 : pyInt (p.sleep_duration.getD (.int cfg.sleep_duration)) with _ | sl <;>
        simp [h1, h2, h3] at h
  obtain ⟨hm, _⟩ := h
  subst hm
  exact ⟨rfl, rfl, rfl⟩

/-- C10, witnessed on a payload that updates all three cadence fields. -/
theorem C10_witness :
    ({ defaultConfig with
        scan_duration := 7, scan_interval := 2, sleep_duration := 9 } :
      AppConfig).db_path = defaultConfig.db_path ∧
    ({ defaultConfig with
        scan_duration := 7, scan_interval := 2, sleep_duration := 9 } :
      AppConfig).host = defaultConfig.host ∧
    ({ defaultConfig with
        scan_duration := 7, scan_interval := 2, sleep_duration := 9 } :
      AppConfig).port = defaultConfig.port :=
  C10_frame defaultConfig
    { scan_duration := some (.int 7), scan_interval := some (.int 2),
      sleep_duration := some (.int 9) }
    { defaultConfig with
        scan_duration := 7, scan_interval := 2, sleep_duration := 9 }
    { scan_duration := 7, scan_interval := 2, sleep_duration := 9 }
    rfl

/-! ## Bluetooth scanner (module/bluetooth_scanner.py) -/

/-- One raw advertisement delivered to detection_callback during a pass:
the device's address, its possibly-missing (or empty) name, the
advertisement's possibly-missing rssi, and the wall-clock instant datetime.now()
would report when the callback runs. -/
structure RawReading where
  address : String
  name : Option String
  rssi : Option Int
  t : Int
deriving DecidableEq, Repr

/-- The BluetoothDevice dataclass (bluetooth_scanner.py, lines 20-30). -/
structure BluetoothDevice where
  address : String
  name : String
  rssi : Int
  timestamp : Int
  device_type : String
deriving DecidableEq, Repr

/-- The BluetoothDevice built by detection_callback (lines 89-97): the name
falls back to the address when missing or empty (Python falsiness), the rssi
defaults to 0 when the advertisement lacks one, and device_type keeps its
dataclass default "unknown". -/
def toDevice (r : RawReading) : BluetoothDevice :=
  { address := r.address
    name := match r.name with
      | some s => if s = "" then r.address else s
      | none => r.address
    rssi := r.rssi.getD 0
    timestamp := r.t
    device_type := "unknown" }

/-- One assignment detected_devices[device.address] = device on the dict,
modelled as an association list in key-insertion order: if the address is
already present its value is overwritten in place, otherwise the new entry is
appended. -/
def dictWrite (m : List BluetoothDevice) (v : BluetoothDevice) :
    List BluetoothDevice :=
  if ∃ d ∈ m, d.address = v.address then
    m.map (fun d => if d.address = v.address then v else d)
  else m ++ [v]

/-- The successful body of _scan_devices_async (lines 83-105): every raw
reading of the pass is written into detected_devices keyed by address, and
list(detected_devices.values()) is returned. -/
def scanPass (readings : List RawReading) : List BluetoothDevice :=
  readings.foldl (fun m r => dictWrite m (toDevice r)) []

/-- The distinct elements of a list in first-occurrence order: the key order
a Python dict ends up with after inserting the list in order. -/
def distinctFirst (l : List String) : List String :=
  l.foldl (fun acc a => if a ∈ acc then acc else acc ++ [a]) []

/-- The last element of a list of readings carrying a given address. -/
def lastFor (a : String) : List RawReading → Option RawReading
  | [] => none
  | r :: rs =>
      match lastFor a rs with
      | some r' => some r'
      | none => if r.address = a then some r else none

theorem toDevice_address (r : RawReading) : (toDevice r).address = r.address :=
  rfl

theorem dictWrite_map_address (m : List BluetoothDevice) (v : BluetoothDevice) :
    (dictWrite m v).map (fun d => d.address) =
      if v.address ∈ m.map (fun d => d.address) then m.map (fun d => d.address)
      else m.map (fun d => d.address) ++ [v.address] := by
  unfold dictWrite
  by_cases h : ∃ d ∈ m, d.address = v.address
  · rw [if_pos h, if_pos]
    · rw [List.map_map]
      refine List.map_congr_left ?_
      intro d _
      by_cases hd : d.address = v.address <;> simp [hd]
    · obtain ⟨d, hdm, hda⟩ := h
      exact List.mem_map.mpr ⟨d, hdm, hda⟩
  · rw [if_neg h, if_neg]
    · simp
    · intro hmem
      obtain ⟨d, hdm, hda⟩ := List.mem_map.mp hmem
      exact h ⟨d, hdm, hda⟩

theorem foldl_dictWrite_map_address (rs : List RawReading)
    (m : List BluetoothDevice) :
    ((rs.foldl (fun acc r => dictWrite acc (toDevice r)) m).map
        (fun d => d.address)) =
      (rs.map (fun r => r.address)).foldl
        (fun acc a => if a ∈ acc then acc else acc ++ [a])
        (m.map (fun d => d.address)) := by
  induction rs generalizing m with
  | nil => rfl
  | cons r rest ih =>
      rw [List.map_cons, List.foldl_cons, List.foldl_cons, ih,
        dictWrite_map_address, toDevice_address]

theorem foldl_distinct_nodup (l : List String) (acc : List String)
    (h : acc.Nodup) :
    (l.foldl (fun acc a => if a ∈ acc then acc else acc ++ [a]) acc).Nodup := by
  induction l generalizing acc with
  | nil => exact h
  | cons a rest ih =>
      rw [List.foldl_cons]
      by_cases ha : a ∈ acc
      · simpa [ha] using ih acc h
      · rw [if_neg ha]
        refine ih _ ?_
        rw [List.nodup_append]
        exact ⟨h, by simp, fun x hx hxa => ha ((List.mem_singleton.mp hxa) ▸ hx)⟩

theorem mem_foldl_distinct (l : List String) (acc : List String) (x : String) :
    (x ∈ l.foldl (fun acc a => if a ∈ acc then acc else acc ++ [a]) acc) ↔
      x ∈ acc ∨ x ∈ l := by
  induction l generalizing acc with
  | nil => simp
  | cons a rest ih =>
      rw [List.foldl_cons]
      by_cases ha : a ∈ acc
      · rw [if_pos ha, ih]
        simp only [List.mem_cons]
        constructor
        · rintro (h | h)
          · exact Or.inl h
          · exact Or.inr (Or.inr h)
        · rintro (h | rfl | h)
          · exact Or.inl h
          · exact Or.inl ha
          · exact Or.inr h
      · rw [if_neg ha, ih]
        simp [or_assoc]

theorem mem_dictWrite (m : List BluetoothDevice) (v d : BluetoothDevice)
    (hd : d ∈ dictWrite m v) : d = v ∨ (d ∈ m ∧ d.address ≠ v.address) := by
  unfold dictWrite at hd
  by_cases h : ∃ e ∈ m, e.address = v.address
  · rw [if_pos h] at hd
    obtain ⟨e, he, hde⟩ := List.mem_map.mp hd
    by_cases hea : e.address = v.address
    · left
      rw [if_pos hea] at hde
      exact hde.symm
    · right
      rw [if_neg hea] at hde
      exact ⟨hde ▸ he, hde ▸ hea⟩
  · rw [if_neg h] at hd
    rcases List.mem_append.mp hd with hm | hv
    · exact Or.inr ⟨hm, fun contra => h ⟨d, hm, contra⟩⟩
    · exact Or.inl (by simpa using hv)

theorem foldl_dictWrite_last (rs : List RawReading) (m : List BluetoothDevice) :
    ∀ d ∈ rs.foldl (fun acc r => dictWrite acc (toDevice r)) m,
      (∃ r, lastFor d.address rs = some r ∧ d = toDevice r) ∨
      (lastFor d.address rs = none ∧ d ∈ m) := by
  induction rs generalizing m with
  | nil =>
      intro d hd
      exact Or.inr ⟨rfl, hd⟩
  | cons r rest ih =>
      intro d hd
      rw [List.foldl_cons] at hd
      rcases ih (dictWrite m (toDevice r)) d hd with ⟨r', hlast, hdev⟩ | ⟨hnone, hdm⟩
      · exact Or.inl ⟨r', by simp [lastFor, hlast], hdev⟩
      · rcases mem_dictWrite m (toDevice r) d hdm with hdv | ⟨hdm', hne⟩
        · refine Or.inl ⟨r, ?_, hdv⟩
          have haddr : r.address = d.address := by rw [hdv]; rfl
          simp [lastFor, hnone, haddr]
        · refine Or.inr ⟨?_, hdm'⟩
          have haddr : ¬ r.address = d.address := by
            intro hc
            exact hne (by rw [toDevice_address]; exact hc.symm)
          simp [lastFor, hnone, haddr]

/-- C5: within one pass, scanPass publishes exactly one entry per distinct
address (in dict key-insertion order, hence with no duplicate address), the
published addresses are exactly the addresses of the pass's raw readings,
and each published entry is built from the last reading observed for its
address in that pass (last-write-wins within the pass window). -/
theorem C5_last_write_wins (readings : List RawReading) :
    (scanPass readings).map (fun d => d.address) =
        distinctFirst (readings.map (fun r => r.address)) ∧
    ((scanPass readings).map (fun d => d.address)).Nodup ∧
    (∀ a, (a ∈ (scanPass readings).map (fun d => d.address)) ↔
        a ∈ readings.map (fun r => r.address)) ∧
    (∀ d ∈ scanPass readings,
        ∃ r, lastFor d.address readings = some r ∧ d = toDevice r) := by
  have hkeys : (scanPass readings).map (fun d => d.address) =
      distinctFirst (readings.map (fun r => r.address)) := by
    unfold scanPass distinctFirst
    rw [foldl_dictWrite_map_address]
    rfl
  refine ⟨hkeys, ?_, ?_, ?_⟩
  · rw [hkeys]
    exact foldl_distinct_nodup _ [] (by simp)
  · intro a
    rw [hkeys]
    unfold distinctFirst
    rw [mem_foldl_distinct]
    simp
  · intro d hd
    rcases foldl_dictWrite_last readings [] d (by simpa [scanPass] using hd) with
      h | ⟨_, habs⟩
    · exact h
    · cases habs

/-- Three raw readings of one pass: two for address AA (the second must
win), one for BB with an empty name (which must fall back to the address). -/
def readings3 : List RawReading :=
  [{ address := "AA", name := some "x", rssi := some (-40), t := 1 },
   { address := "AA", name := none, rssi := some (-55), t := 2 },
   { address := "BB", name := some "", rssi := none, t := 3 }]

/-- C5, witnessed on a pass with duplicate readings for one address. -/
theorem C5_witness :
    (scanPass readings3).map (fun d => d.address) =
        distinctFirst (readings3.map (fun r => r.address)) ∧
    ((scanPass readings3).map (fun d => d.address)).Nodup ∧
    (∀ a, (a ∈ (scanPass readings3).map (fun d => d.address)) ↔
        a ∈ readings3.map (fun r => r.address)) ∧
    (∀ d ∈ scanPass readings3,
        ∃ r, lastFor d.address readings3 = some r ∧ d = toDevice r) :=
  C5_last_write_wins readings3

/-- The scheduler lifecycle state of BluetoothScanner: the is_scanning flag
and the number of scheduler threads spawned so far. -/
structure ScannerLifecycle where
  is_scanning : Bool
  loops : Nat
deriving DecidableEq, Repr

/-- start_scanning (lines 129-139): returns immediately when is_scanning is
already set, otherwise sets it and spawns one new _scan_loop thread. -/
def start_scanning (s : ScannerLifecycle) : ScannerLifecycle :=
  if s.is_scanning then s else { is_scanning := true, loops := s.loops + 1 }

/-- C6: start_scanning moves Idle to Running only from Idle and is an
idempotent no-op otherwise; two consecutive calls from Idle spawn exactly one
scheduler loop. -/
theorem C6_start_idempotent (s : ScannerLifecycle) :
    start_scanning (start_scanning s) = start_scanning s ∧
    (s.is_scanning = false →
      start_scanning s = { is_scanning := true, loops := s.loops + 1 }) ∧
    (s.is_scanning = true → start_scanning s = s) ∧
    (∀ n, (start_scanning (start_scanning
        { is_scanning := false, loops := n })).loops = n + 1) := by
  refine ⟨?_, ?_, ?_, ?_⟩
  · cases h : s.is_scanning <;> simp [start_scanning, h]
  · intro h; simp [start_scanning, h]
  · intro h; simp [start_scanning, h]
  · intro n; simp [start_scanning]

/-- C6, witnessed at the freshly constructed scanner (Idle, no loops). -/
theorem C6_witness :
    start_scanning (start_scanning { is_scanning := false, loops := 0 }) =
      start_scanning { is_scanning := false, loops := 0 } ∧
    ((({ is_scanning := false, loops := 0 } : ScannerLifecycle)).is_scanning = false →
      start_scanning { is_scanning := false, loops := 0 } =
        { is_scanning := true, loops := 0 + 1 }) ∧
    ((({ is_scanning := false, loops := 0 } : ScannerLifecycle)).is_scanning = true →
      start_scanning { is_scanning := false, loops := 0 } =
        { is_scanning := false, loops := 0 }) ∧
    (∀ n, (start_scanning (start_scanning
        { is_scanning := false, loops := n })).loops = n + 1) :=
  C6_start_idempotent { is_scanning := false, loops := 0 }

/-- One scheduler pass as _scan_devices delivers it to the loop: the bleak
interaction either yields the pass's raw readings or raises, and both
_scan_devices_async (lines 107-109) and _scan_devices (lines 125-127) catch
every exception and substitute an empty device list, so the loop body always
receives a plain list and no error escapes to callers. -/
def scan_devices_result (outcome : Except String (List RawReading)) :
    List BluetoothDevice :=
  match outcome with
  | .ok readings => scanPass readings
  | .error _ => []

/-- The _scan_loop cycle (lines 153-173) over a finite schedule of pass
outcomes: each iteration publishes the result of one pass and proceeds to
the next; nothing a pass does can abort the loop. -/
def scan_loop_publishes :
    List (Except String (List RawReading)) → List (List BluetoothDevice)
  | [] => []
  | o :: rest => scan_devices_result o :: scan_loop_publishes rest

/-- C7: a failing Observation Source pass yields the empty result instead of
an error, and the loop publishes exactly one result per scheduled pass,
each computed independently of every other pass, so a single failed pass
never stops future passes or aborts the scheduler loop. -/
theorem C7_failed_pass_recovery
    (passes : List (Except String (List RawReading))) (e : String) :
    scan_devices_result (Except.error e) = [] ∧
    scan_loop_publishes passes = passes.map scan_devices_result ∧
    (scan_loop_publishes passes).length = passes.length := by
  refine ⟨rfl, ?_, ?_⟩
  · induction passes with
    | nil => rfl
    | cons o rest ih => simp [scan_loop_publishes, ih]
  · induction passes with
    | nil => rfl
    | cons o rest ih => simp [scan_loop_publishes, ih]

/-! ### The timed scan loop (for the shutdown-latency claim)

One step of `loopStep` models one second of the scheduler thread.
`sampling n` is the thread inside a scan pass with n seconds of the sample
remaining (an in-flight sample is never preempted); when the sample ends the
thread enters time.sleep(scan_interval), modelled as `resting interval`.
time.sleep is an uninterruptible blocking sleep, so the resting countdown
proceeds regardless of the stop flag.  `resting 0` is the `while
self.is_scanning` check at the top of the loop.  `stop_requested = true`
models stop_scanning (lines 141-151) having set is_scanning = False; its
thread join returns exactly when the loop reaches `exited`. -/

/-- Phase of the scheduler thread within its cycle. -/
inductive LoopPhase where
  | sampling (remaining : Nat)
  | resting (remaining : Nat)
  | exited
deriving DecidableEq, Repr

/-- Scheduler-thread state: its phase and whether a stop was requested. -/
structure LoopState where
  phase : LoopPhase
  stop_requested : Bool
deriving DecidableEq, Repr

/-- One second of the _scan_loop thread (interval and duration are the
scanner's scan_interval and scan_duration). -/
def loopStep (interval duration : Nat) (s : LoopState) : LoopState :=
  match s.phase with
  | .exited => s
  | .sampling (n+1) => { s with phase := .sampling n }
  | .sampling 0 => { s with phase := .resting interval }
  | .resting (n+1) => { s with phase := .resting n }
  | .resting 0 =>
      if s.stop_requested then { s with phase := .exited }
      else { s with phase := .sampling duration }

/-- The scheduler thread run for k seconds. -/
def runLoop (interval duration : Nat) : Nat → LoopState → LoopState
  | 0, s => s
  | k+1, s => runLoop interval duration k (loopStep interval duration s)

/-- C2: with scan_interval = 5, a stop requested at the instant a rest
period begins (no sample running, so the claimed bound on the remaining
sample time is 0 seconds) is only observed after the full 5-second rest has
elapsed: after 5 seconds the loop has still not exited, and it exits at the
next check.  stop_scanning's join therefore blocks for the full rest
interval, contradicting the claim that shutdown latency is bounded by the
current sample's remaining duration and never the full rest interval. -/
theorem C2_bug_eval :
    (runLoop 5 10 5 { phase := .resting 5, stop_requested := true }).phase ≠
      LoopPhase.exited ∧
    (runLoop 5 10 6 { phase := .resting 5, stop_requested := true }).phase =
      LoopPhase.exited := by
  decide

/-! ## Event store (module/store.py) -/

/-- One row of the device_scans table (store.py, init_schema lines 15-42):
the AUTOINCREMENT rowid, address, nullable name, rssi, device_type and the
timestamp column. -/
structure ScanRow where
  id : Nat
  address : String
  name : Option String
  rssi : Int
  device_type : String
  ts : Int
deriving DecidableEq, Repr

/-- The store: the table's rows in insertion order plus the AUTOINCREMENT
sequence counter, which hands out strictly increasing rowids and is not
reset by DELETE. -/
structure Store where
  rows : List ScanRow
  nextId : Nat
deriving DecidableEq, Repr

/-- The store invariant maintained by the embedding: rowids increase with
insertion order and stay below the sequence counter. -/
def Store.WF (s : Store) : Prop :=
  s.rows.Pairwise (fun a b => a.id < b.id) ∧ ∀ r ∈ s.rows, r.id < s.nextId

/-- The tuple written for one device by insert_scan_results (lines 44-65),
with rowid i assigned by sqlite. -/
def toRow (i : Nat) (d : BluetoothDevice) : ScanRow :=
  { id := i
    address := d.address
    name := some d.name
    rssi := d.rssi
    device_type := d.device_type
    ts := d.timestamp }

/-- Rows for a batch of devices with consecutive rowids from n. -/
def assignIds (n : Nat) : List BluetoothDevice → List ScanRow
  | [] => []
  | d :: ds => toRow n d :: assignIds (n + 1) ds

/-- insert_scan_results (lines 44-65): a no-op on an empty batch, otherwise
one executemany appending all rows of the batch. -/
def insert_scan_results (s : Store) (devices : List BluetoothDevice) : Store :=
  if devices.isEmpty then s
  else { rows := s.rows ++ assignIds s.nextId devices
         nextId := s.nextId + devices.length }

/-- The row order produced by recent_scans' query (lines 96-118):
ORDER BY ts DESC is answered by scanning the idx_device_scans_ts index
backwards, which yields ts descending and, within equal ts, rowid
descending. -/
def recentRel (a b : ScanRow) : Prop :=
  b.ts < a.ts ∨ (a.ts = b.ts ∧ b.id ≤ a.id)

instance : DecidableRel recentRel := fun a b => by
  unfold recentRel
  exact inferInstance

instance : IsTotal ScanRow recentRel :=
  ⟨by intro a b; unfold recentRel; omega⟩

instance : IsTrans ScanRow recentRel :=
  ⟨by intro a b c; unfold recentRel; omega⟩

/-- recent_scans (lines 96-118): the rows ordered ts descending (rowid
descending within equal ts), truncated to the limit.  The returned dicts
drop the id column; we keep the whole row. -/
def recent_scans (s : Store) (limit : Nat) : List ScanRow :=
  (List.insertionSort recentRel s.rows).take limit

theorem orderedInsert_append_of_not_rel {α : Type} (r : α → α → Prop)
    [DecidableRel r] (a : α) (l₁ l₂ : List α) (h : ∀ b ∈ l₁, ¬ r a b) :
    List.orderedInsert r a (l₁ ++ l₂) = l₁ ++ List.orderedInsert r a l₂ := by
  induction l₁ with
  | nil => rfl
  | cons b l ih =>
      simp only [List.cons_append, List.orderedInsert, List.append_eq]
      rw [if_neg (h b (List.mem_cons_self b l)),
        ih (fun x hx => h x (List.mem_cons_of_mem b hx))]

theorem insertionSort_append_of_dominated {α : Type} (r : α → α → Prop)
    [DecidableRel r] (old new : List α) (h : ∀ o ∈ old, ∀ n ∈ new, ¬ r o n) :
    List.insertionSort r (old ++ new) =
      List.insertionSort r new ++ List.insertionSort r old := by
  induction old with
  | nil => simp
  | cons o old' ih =>
      have hdom : ∀ b ∈ List.insertionSort r new, ¬ r o b := fun b hb =>
        h o (List.mem_cons_self o old') b ((List.perm_insertionSort r new).subset hb)
      simp only [List.cons_append, List.insertionSort, List.append_eq]
      rw [ih (fun x hx => h x (List.mem_cons_of_mem o hx)),
        orderedInsert_append_of_not_rel r o _ _ hdom]

theorem assignIds_length (n : Nat) (ds : List BluetoothDevice) :
    (assignIds n ds).length = ds.length := by
  induction ds generalizing n with
  | nil => rfl
  | cons d ds ih => simp [assignIds, ih]

theorem assignIds_id_ge (n : Nat) (ds : List BluetoothDevice) :
    ∀ x ∈ assignIds n ds, n ≤ x.id := by
  induction ds generalizing n with
  | nil => intro x hx; cases hx
  | cons d ds ih =>
      intro x hx
      rcases List.mem_cons.mp hx with rfl | hx'
      · exact Nat.le_refl n
      · exact Nat.le_of_succ_le (ih (n + 1) x hx')

theorem assignIds_ts (n : Nat) (ds : List BluetoothDevice) :
    ∀ x ∈ assignIds n ds, ∃ d ∈ ds, x.ts = d.timestamp := by
  induction ds generalizing n with
  | nil => intro x hx; cases hx
  | cons d ds ih =>
      intro x hx
      rcases List.mem_cons.mp hx with rfl | hx'
      · exact ⟨d, List.mem_cons_self d ds, rfl⟩
      · obtain ⟨d', hd', hts⟩ := ih (n + 1) x hx'
        exact ⟨d', List.mem_cons_of_mem d hd', hts⟩

/-- The store holding one row for address AA at time 2 (rowid 0). -/
def store1 : Store :=
  { rows := [{ id := 0, address := "AA", name := none, rssi := 0,
               device_type := "unknown", ts := 2 }]
    nextId := 1 }

/-- A device observed at time 1, older than everything in store1. -/
def dev1 : BluetoothDevice :=
  { address := "BB", name := "BB", rssi := -40, timestamp := 1,
    device_type := "unknown" }

/-- C4 counterexample: appending a batch and then calling recent with the
batch's length does not in general return that batch.  With store1 holding
a row at time 2 and a batch holding one event at time 1, recent 1 returns
the pre-existing row, and no element of the appended batch appears in the
result. -/
theorem C4_counterexample :
    recent_scans (insert_scan_results store1 [dev1]) 1 =
      [{ id := 0, address := "AA", name := none, rssi := 0,
         device_type := "unknown", ts := 2 }] ∧
    ∀ x ∈ recent_scans (insert_scan_results store1 [dev1]) 1,
      x ∉ assignIds store1.nextId [dev1] := by
  decide

/-- C4 as amended: recent_scans returns the limit most recent rows ordered
by ts descending with ties broken by insertion order descending (rowid
descending, which under the store invariant is most-recently-appended
first), every returned row is a store row, the returned rows dominate (in
that order) every row the truncation dropped, and the in-particular clause
holds under the hypothesis the spec's test scenario relies on: when no
pre-existing row is newer than any event of the appended batch, appending
the batch and asking for its length returns exactly the batch's rows,
ordered by ts descending. -/
theorem C4_amended (s : Store) (limit : Nat) (devices : List BluetoothDevice)
    (hwf : s.WF)
    (hts : ∀ d ∈ devices, ∀ r ∈ s.rows, r.ts ≤ d.timestamp) :
    List.Sorted recentRel (recent_scans s limit) ∧
    (∀ x ∈ recent_scans s limit, x ∈ s.rows) ∧
    (recent_scans s limit).length = min limit s.rows.length ∧
    (∀ x ∈ recent_scans s limit,
      ∀ y ∈ (List.insertionSort recentRel s.rows).drop limit, recentRel x y) ∧
    (recent_scans (insert_scan_results s devices) devices.length =
        List.insertionSort recentRel (assignIds s.nextId devices) ∧
      (recent_scans (insert_scan_results s devices) devices.length).Perm
        (assignIds s.nextId devices) ∧
      List.Sorted recentRel
        (recent_scans (insert_scan_results s devices) devices.length)) := by
  have hsorted : List.Sorted recentRel (List.insertionSort recentRel s.rows) :=
    List.sorted_insertionSort recentRel s.rows
  refine ⟨?_, ?_, ?_, ?_, ?_⟩
  · exact hsorted.sublist (List.take_sublist limit _)
  · intro x hx
    exact (List.perm_insertionSort recentRel s.rows).subset
      ((List.take_sublist limit _).subset hx)
  · rw [recent_scans, List.length_take,
      (List.perm_insertionSort recentRel s.rows).length_eq]
  · intro x hx y hy
    exact hsorted.rel_of_mem_take_of_mem_drop hx hy
  · by_cases hdev : devices.isEmpty
    · rw [List.isEmpty_iff] at hdev
      subst hdev
      refine ⟨rfl, by simp [recent_scans, assignIds], by simp [recent_scans, assignIds]⟩
    · have hins : insert_scan_results s devices =
          { rows := s.rows ++ assignIds s.nextId devices
            nextId := s.nextId + devices.length } := by
        simp [insert_scan_results, hdev]
      have hdom : ∀ o ∈ s.rows, ∀ n ∈ assignIds s.nextId devices, ¬ recentRel o n := by
        intro o ho n hn
        have hid : s.nextId ≤ n.id := assignIds_id_ge s.nextId devices n hn
        have hido : o.id < s.nextId := hwf.2 o ho
        obtain ⟨d, hd, hnts⟩ := assignIds_ts s.nextId devices n hn
        have hots : o.ts ≤ n.ts := hnts ▸ hts d hd o ho
        unfold recentRel
        omega
      have hsplit : List.insertionSort recentRel
            (s.rows ++ assignIds s.nextId devices) =
          List.insertionSort recentRel (assignIds s.nextId devices) ++
            List.insertionSort recentRel s.rows :=
        insertionSort_append_of_dominated recentRel _ _ hdom
      have hlen : (List.insertionSort recentRel
            (assignIds s.nextId devices)).length = devices.length := by
        rw [(List.perm_insertionSort recentRel _).length_eq, assignIds_length]
      have hmain : recent_scans (insert_scan_results s devices) devices.length =
          List.insertionSort recentRel (assignIds s.nextId devices) := by
        rw [hins, recent_scans]
        simp only
        rw [hsplit, ← hlen, List.take_left]
      refine ⟨hmain, ?_, ?_⟩
      · rw [hmain]
        exact List.perm_insertionSort recentRel _
      · rw [hmain]
        exact List.sorted_insertionSort recentRel _

/-- A batch of two fresh events at times 3 and 3 (a ts tie, so insertion
order must break it). -/
def batch2 : List BluetoothDevice :=
  [{ address := "CC", name := "CC", rssi := -50, timestamp := 3,
     device_type := "unknown" },
   { address := "DD", name := "DD", rssi := -60, timestamp := 3,
     device_type := "unknown" }]

/-- C4 amended, witnessed on store1 and a fresh two-event batch. -/
theorem C4_witness :
    List.Sorted recentRel (recent_scans store1 1) ∧
    (∀ x ∈ recent_scans store1 1, x ∈ store1.rows) ∧
    (recent_scans store1 1).length = min 1 store1.rows.length ∧
    (∀ x ∈ recent_scans store1 1,
      ∀ y ∈ (List.insertionSort recentRel store1.rows).drop 1, recentRel x y) ∧
    (recent_scans (insert_scan_results store1 batch2) batch2.length =
        List.insertionSort recentRel (assignIds store1.nextId batch2) ∧
      (recent_scans (insert_scan_results store1 batch2) batch2.length).Perm
        (assignIds store1.nextId batch2) ∧
      List.Sorted recentRel
        (recent_scans (insert_scan_results store1 batch2) batch2.length)) :=
  C4_amended store1 1 batch2 (by constructor <;> decide) (by decide)

/-- One entry of the top_devices list of analytics_summary. -/
structure TopDevice where
  address : String
  count : Nat
deriving DecidableEq, Repr

/-- The order in which analytics_summary's top-devices query (store.py line
83-85) returns its groups.  GROUP BY address walks the address index, so the
groups are produced in ascending address order, and sqlite's stable sorter
then orders them by count descending; the composite effect on the
distinct-address groups is count descending with ties in ascending address
order, which is this relation. -/
def topRel (a b : TopDevice) : Prop :=
  b.count < a.count ∨ (a.count = b.count ∧ a.address ≤ b.address)

instance : DecidableRel topRel := fun a b => by
  unfold topRel
  exact inferInstance

instance : IsTotal TopDevice topRel := by
  constructor
  intro a b
  unfold topRel
  rcases Nat.lt_trichotomy a.count b.count with h | h | h
  · exact Or.inr (Or.inl h)
  · rcases le_total a.address b.address with hle | hle
    · exact Or.inl (Or.inr ⟨h, hle⟩)
    · exact Or.inr (Or.inr ⟨h.symm, hle⟩)
  · exact Or.inl (Or.inl h)

instance : IsTrans TopDevice topRel := by
  constructor
  intro a b c hab hbc
  unfold topRel at hab hbc ⊢
  rcases hab with h1 | ⟨e1, l1⟩ <;> rcases hbc with h2 | ⟨e2, l2⟩
  · exact Or.inl (lt_trans h2 h1)
  · exact Or.inl (lt_of_eq_of_lt e2.symm h1)
  · exact Or.inl (lt_of_lt_of_eq h2 e1.symm)
  · exact Or.inr ⟨e1.trans e2, le_trans l1 l2⟩

/-- The (address, COUNT(*)) groups of the rows, one per distinct address. -/
def groupCounts (rows : List ScanRow) : List TopDevice :=
  (distinctFirst (rows.map (fun r => r.address))).map
    (fun a => { address := a
                count := (rows.filter (fun r => decide (r.address = a))).length })

/-- The MIN aggregate over a column: NULL (none) on an empty table. -/
def sqlMin : List Int → Option Int
  | [] => none
  | t :: ts => some (ts.foldl min t)

/-- The MAX aggregate over a column: NULL (none) on an empty table. -/
def sqlMax : List Int → Option Int
  | [] => none
  | t :: ts => some (ts.foldl max t)

/-- The dict returned by analytics_summary (store.py, lines 67-94). -/
structure SummaryResult where
  total_records : Nat
  unique_devices : Nat
  top_devices : List TopDevice
  first_seen : Option Int
  last_seen : Option Int
deriving DecidableEq, Repr

/-- analytics_summary (store.py, lines 67-94): COUNT(*), COUNT(DISTINCT
address), MIN(ts), MAX(ts), and the top-5 groups of the GROUP BY address
ORDER BY cnt DESC LIMIT 5 query. -/
def analytics_summary (s : Store) : SummaryResult :=
  { total_records := s.rows.length
    unique_devices := (distinctFirst (s.rows.map (fun r => r.address))).length
    top_devices := (List.insertionSort topRel (groupCounts s.rows)).take 5
    first_seen := sqlMin (s.rows.map (fun r => r.ts))
    last_seen := sqlMax (s.rows.map (fun r => r.ts)) }

theorem foldl_min_le (l : List Int) (t : Int) :
    l.foldl min t ≤ t ∧ ∀ u ∈ l, l.foldl min t ≤ u := by
  induction l generalizing t with
  | nil => exact ⟨le_refl t, fun u hu => absurd hu (List.not_mem_nil u)⟩
  | cons v l ih =>
      obtain ⟨h1, h2⟩ := ih (min t v)
      rw [List.foldl_cons]
      refine ⟨le_trans h1 (min_le_left t v), ?_⟩
      intro u hu
      rcases List.mem_cons.mp hu with rfl | hu'
      · exact le_trans h1 (min_le_right t u)
      · exact h2 u hu'

theorem foldl_min_mem (l : List Int) (t : Int) :
    l.foldl min t = t ∨ l.foldl min t ∈ l := by
  induction l generalizing t with
  | nil => exact Or.inl rfl
  | cons v l ih =>
      rw [List.foldl_cons]
      rcases ih (min t v) with h | h
      · rcases min_choice t v with hc | hc
        · exact Or.inl (h.trans hc)
        · exact Or.inr (by rw [h, hc]; exact List.mem_cons_self v l)
      · exact Or.inr (List.mem_cons_of_mem v h)

theorem foldl_max_ge (l : List Int) (t : Int) :
    t ≤ l.foldl max t ∧ ∀ u ∈ l, u ≤ l.foldl max t := by
  induction l generalizing t with
  | nil => exact ⟨le_refl t, fun u hu => absurd hu (List.not_mem_nil u)⟩
  | cons v l ih =>
      obtain ⟨h1, h2⟩ := ih (max t v)
      rw [List.foldl_cons]
      refine ⟨le_trans (le_max_left t v) h1, ?_⟩
      intro u hu
      rcases List.mem_cons.mp hu with rfl | hu'
      · exact le_trans (le_max_right t u) h1
      · exact h2 u hu'

theorem foldl_max_mem (l : List Int) (t : Int) :
    l.foldl max t = t ∨ l.foldl max t ∈ l := by
  induction l generalizing t with
  | nil => exact Or.inl rfl
  | cons v l ih =>
      rw [List.foldl_cons]
      rcases ih (max t v) with h | h
      · rcases max_choice t v with hc | hc
        · exact Or.inl (h.trans hc)
        · exact Or.inr (by rw [h, hc]; exact List.mem_cons_self v l)
      · exact Or.inr (List.mem_cons_of_mem v h)

theorem sqlMin_spec (l : List Int) :
    (sqlMin l = none ↔ l = []) ∧
    ∀ m, sqlMin l = some m → m ∈ l ∧ ∀ u ∈ l, m ≤ u := by
  cases l with
  | nil => exact ⟨by simp [sqlMin], fun m hm => by simp [sqlMin] at hm⟩
  | cons t ts =>
      refine ⟨by simp [sqlMin], ?_⟩
      intro m hm
      have hm' : m = ts.foldl min t := by
        simpa [sqlMin] using hm.symm
      subst hm'
      obtain ⟨h1, h2⟩ := foldl_min_le ts t
      constructor
      · rcases foldl_min_mem ts t with h | h
        · rw [h]; exact List.mem_cons_self t ts
        · exact List.mem_cons_of_mem t h
      · intro u hu
        rcases List.mem_cons.mp hu with rfl | hu'
        · exact h1
        · exact h2 u hu'

theorem sqlMax_spec (l : List Int) :
    (sqlMax l = none ↔ l = []) ∧
    ∀ m, sqlMax l = some m → m ∈ l ∧ ∀ u ∈ l, u ≤ m := by
  cases l with
  | nil => exact ⟨by simp [sqlMax], fun m hm => by simp [sqlMax] at hm⟩
  | cons t ts =>
      refine ⟨by simp [sqlMax], ?_⟩
      intro m hm
      have hm' : m = ts.foldl max t := by
        simpa [sqlMax] using hm.symm
      subst hm'
      obtain ⟨h1, h2⟩ := foldl_max_ge ts t
      constructor
      · rcases foldl_max_mem ts t with h | h
        · rw [h]; exact List.mem_cons_self t ts
        · exact List.mem_cons_of_mem t h
      · intro u hu
        rcases List.mem_cons.mp hu with rfl | hu'
        · exact h1
        · exact h2 u hu'

theorem groupCounts_map_address (rows : List ScanRow) :
    (groupCounts rows).map (fun g => g.address) =
      distinctFirst (rows.map (fun r => r.address)) := by
  unfold groupCounts
  rw [List.map_map]
  exact List.map_id _

/-- C3: analytics_summary reports the total event count, the distinct
address count, the earliest and latest observedAt (NULL exactly on an empty
store), and a top_devices list that is strictly ordered by event count
descending with ties broken by address ascending (hence deterministic),
whose entries carry the true per-address event counts, whose length is
min 5 (distinct count), and whose entries dominate every group the LIMIT 5
truncation dropped. -/
theorem C3_summary_spec (s : Store) :
    (analytics_summary s).total_records = s.rows.length ∧
    (analytics_summary s).unique_devices =
      ((s.rows.map (fun r => r.address)).dedup).length ∧
    ((analytics_summary s).first_seen = none ↔ s.rows = []) ∧
    (∀ m, (analytics_summary s).first_seen = some m →
      m ∈ s.rows.map (fun r => r.ts) ∧ ∀ u ∈ s.rows.map (fun r => r.ts), m ≤ u) ∧
    ((analytics_summary s).last_seen = none ↔ s.rows = []) ∧
    (∀ m, (analytics_summary s).last_seen = some m →
      m ∈ s.rows.map (fun r => r.ts) ∧ ∀ u ∈ s.rows.map (fun r => r.ts), u ≤ m) ∧
    List.Pairwise (fun a b : TopDevice =>
        b.count < a.count ∨ (a.count = b.count ∧ a.address < b.address))
      (analytics_summary s).top_devices ∧
    (∀ g ∈ (analytics_summary s).top_devices,
      g.address ∈ s.rows.map (fun r => r.address) ∧
      g.count = (s.rows.filter (fun r => decide (r.address = g.address))).length) ∧
    (analytics_summary s).top_devices.length =
      min 5 (analytics_summary s).unique_devices ∧
    (∀ g ∈ (analytics_summary s).top_devices,
      ∀ g' ∈ (List.insertionSort topRel (groupCounts s.rows)).drop 5,
        topRel g g') := by
  have hsorted : List.Sorted topRel (List.insertionSort topRel (groupCounts s.rows)) :=
    List.sorted_insertionSort topRel (groupCounts s.rows)
  have hpermS := List.perm_insertionSort topRel (groupCounts s.rows)
  refine ⟨rfl, ?_, ?_, ?_, ?_, ?_, ?_, ?_, ?_, ?_⟩
  · have hnodup1 : (distinctFirst (s.rows.map fun r => r.address)).Nodup :=
      foldl_distinct_nodup _ [] (by simp)
    have hnodup2 := List.nodup_dedup (s.rows.map fun r => r.address)
    have hmemiff : ∀ a, a ∈ distinctFirst (s.rows.map fun r => r.address) ↔
        a ∈ (s.rows.map fun r => r.address).dedup := by
      intro a
      rw [List.mem_dedup]
      unfold distinctFirst
      rw [mem_foldl_distinct]
      simp
    exact ((List.perm_ext_iff_of_nodup hnodup1 hnodup2).mpr hmemiff).length_eq
  · exact ((sqlMin_spec (s.rows.map fun r => r.ts)).1).trans List.map_eq_nil_iff
  · exact (sqlMin_spec (s.rows.map fun r => r.ts)).2
  · exact ((sqlMax_spec (s.rows.map fun r => r.ts)).1).trans List.map_eq_nil_iff
  · exact (sqlMax_spec (s.rows.map fun r => r.ts)).2
  · have hnodupG : ((groupCounts s.rows).map (fun g => g.address)).Nodup := by
      rw [groupCounts_map_address]
      exact foldl_distinct_nodup _ [] (by simp)
    have hnodupS : ((List.insertionSort topRel (groupCounts s.rows)).map
        (fun g => g.address)).Nodup := ((hpermS.map _).nodup_iff).mpr hnodupG
    have hne : List.Pairwise (fun a b : TopDevice => a.address ≠ b.address)
        (List.insertionSort topRel (groupCounts s.rows)) :=
      List.pairwise_map.mp hnodupS
    have hstrict : List.Pairwise (fun a b : TopDevice =>
        b.count < a.count ∨ (a.count = b.count ∧ a.address < b.address))
        (List.insertionSort topRel (groupCounts s.rows)) := by
      refine (hsorted.and hne).imp ?_
      rintro a b ⟨hr | ⟨e, le⟩, hneq⟩
      · exact Or.inl hr
      · exact Or.inr ⟨e, lt_of_le_of_ne le hneq⟩
    exact hstrict.sublist (List.take_sublist 5 _)
  · intro g hg
    have hg2 : g ∈ groupCounts s.rows :=
      hpermS.subset ((List.take_sublist 5 _).subset hg)
    unfold groupCounts at hg2
    obtain ⟨a, ha, rfl⟩ := List.mem_map.mp hg2
    refine ⟨?_, rfl⟩
    unfold distinctFirst at ha
    have hmem := (mem_foldl_distinct (s.rows.map fun r => r.address) [] a).mp ha
    rcases hmem with habs | hmem'
    · cases habs
    · exact hmem'
  · show ((List.insertionSort topRel (groupCounts s.rows)).take 5).length =
      min 5 (analytics_summary s).unique_devices
    rw [List.length_take, hpermS.length_eq]
    unfold groupCounts
    rw [List.length_map]
    rfl
  · intro g hg g' hg'
    exact hsorted.rel_of_mem_take_of_mem_drop hg hg'

/-- The store of the spec's end-to-end example: events for addresses A, A,
B at times 1 < 2 < 3. -/
def storeE2E : Store :=
  { rows := [{ id := 0, address := "A", name := some "devA", rssi := -40,
               device_type := "unknown", ts := 1 },
             { id := 1, address := "A", name := some "devA", rssi := -42,
               device_type := "unknown", ts := 2 },
             { id := 2, address := "B", name := none, rssi := -50,
               device_type := "unknown", ts := 3 }]
    nextId := 3 }

/-- C3, witnessed on the spec's end-to-end example store. -/
theorem C3_witness :
    (analytics_summary storeE2E).total_records = storeE2E.rows.length ∧
    (analytics_summary storeE2E).unique_devices =
      ((storeE2E.rows.map (fun r => r.address)).dedup).length ∧
    ((analytics_summary storeE2E).first_seen = none ↔ storeE2E.rows = []) ∧
    (∀ m, (analytics_summary storeE2E).first_seen = some m →
      m ∈ storeE2E.rows.map (fun r => r.ts) ∧
      ∀ u ∈ storeE2E.rows.map (fun r => r.ts), m ≤ u) ∧
    ((analytics_summary storeE2E).last_seen = none ↔ storeE2E.rows = []) ∧
    (∀ m, (analytics_summary storeE2E).last_seen = some m →
      m ∈ storeE2E.rows.map (fun r => r.ts) ∧
      ∀ u ∈ storeE2E.rows.map (fun r => r.ts), u ≤ m) ∧
    List.Pairwise (fun a b : TopDevice =>
        b.count < a.count ∨ (a.count = b.count ∧ a.address < b.address))
      (analytics_summary storeE2E).top_devices ∧
    (∀ g ∈ (analytics_summary storeE2E).top_devices,
      g.address ∈ storeE2E.rows.map (fun r => r.address) ∧
      g.count = (storeE2E.rows.filter
        (fun r => decide (r.address = g.address))).length) ∧
    (analytics_summary storeE2E).top_devices.length =
      min 5 (analytics_summary storeE2E).unique_devices ∧
    (∀ g ∈ (analytics_summary storeE2E).top_devices,
      ∀ g' ∈ (List.insertionSort topRel (groupCounts storeE2E.rows)).drop 5,
        topRel g g') :=
  C3_summary_spec storeE2E

/-- The dict returned by clear_all_data (store.py, lines 159-180). -/
structure ClearResult where
  records_deleted : Nat
  records_before : Nat
  success : Bool
deriving DecidableEq, Repr

/-- clear_all_data (store.py, lines 159-180): one transaction reads
COUNT(*) and then runs DELETE FROM device_scans; cursor.rowcount
(sqlite3_changes) reports every deleted row, also under sqlite's truncate
optimization, and the AUTOINCREMENT sequence is not reset by DELETE. -/
def clear_all_data (s : Store) : Store × ClearResult :=
  ({ rows := [], nextId := s.nextId },
   { records_deleted := s.rows.length
     records_before := s.rows.length
     success := true })

/-- C9: clear_all_data removes every event in one operation; the returned
records_deleted equals records_before, both equal the prior row count, the
call reports success, and analytics_summary immediately afterwards reports
zero total records and zero unique devices. -/
theorem C9_clear_all (s : Store) :
    (clear_all_data s).2.records_deleted = (clear_all_data s).2.records_before ∧
    (clear_all_data s).2.records_before = s.rows.length ∧
    (clear_all_data s).2.success = true ∧
    (clear_all_data s).1.rows = [] ∧
    (analytics_summary (clear_all_data s).1).total_records = 0 ∧
    (analytics_summary (clear_all_data s).1).unique_devices = 0 :=
  ⟨rfl, rfl, rfl, rfl, rfl, rfl⟩

/-! ### Timeline query (get_timeline_data, store.py lines 120-157) -/

/-- One detection dict of a timeline device entry. -/
structure Detection where
  timestamp : Int
  rssi : Int
deriving DecidableEq, Repr

/-- One device entry of the timeline result. -/
structure DeviceTimeline where
  address : String
  name : String
  detections : List Detection
deriving DecidableEq, Repr

/-- The row order produced by the timeline query's ORDER BY address, ts:
ascending on the (address, ts) pair, with sqlite's stable sorter letting
the underlying rowid order break the remaining ties. -/
def timelineRel (a b : ScanRow) : Prop :=
  a.address < b.address ∨
    (a.address = b.address ∧ (a.ts < b.ts ∨ (a.ts = b.ts ∧ a.id ≤ b.id)))

instance : DecidableRel timelineRel := fun a b => by
  unfold timelineRel
  exact inferInstance

instance : IsTotal ScanRow timelineRel := by
  constructor
  intro a b
  unfold timelineRel
  rcases lt_trichotomy a.address b.address with h | h | h
  · exact Or.inl (Or.inl h)
  · rcases lt_trichotomy a.ts b.ts with h2 | h2 | h2
    · exact Or.inl (Or.inr ⟨h, Or.inl h2⟩)
    · rcases Nat.le_total a.id b.id with h3 | h3
      · exact Or.inl (Or.inr ⟨h, Or.inr ⟨h2, h3⟩⟩)
      · exact Or.inr (Or.inr ⟨h.symm, Or.inr ⟨h2.symm, h3⟩⟩)
    · exact Or.inr (Or.inr ⟨h.symm, Or.inl h2⟩)
  · exact Or.inr (Or.inl h)

instance : IsTrans ScanRow timelineRel := by
  constructor
  intro a b c hab hbc
  unfold timelineRel at hab hbc ⊢
  rcases hab with h1 | ⟨e1, t1⟩ <;> rcases hbc with h2 | ⟨e2, t2⟩
  · exact Or.inl (lt_trans h1 h2)
  · exact Or.inl (lt_of_lt_of_eq h1 e2)
  · exact Or.inl (lt_of_eq_of_lt e1 h2)
  · refine Or.inr ⟨e1.trans e2, ?_⟩
    rcases t1 with h1 | ⟨e1', i1⟩ <;> rcases t2 with h2 | ⟨e2', i2⟩
    · exact Or.inl (lt_trans h1 h2)
    · exact Or.inl (lt_of_lt_of_eq h1 e2')
    · exact Or.inl (lt_of_eq_of_lt e1' h2)
    · exact Or.inr ⟨e1'.trans e2', Nat.le_trans i1 i2⟩

/-- The display_name computed at store.py line 142: `name or address`, so a
NULL or empty name falls back to the address. -/
def displayName (r : ScanRow) : String :=
  match r.name with
  | some s => if s = "" then r.address else s
  | none => r.address

/-- The detection dict built from one row at store.py lines 149-152
(`rssi or 0` is the identity on the non-NULL integer rssi values
insert_scan_results writes). -/
def toDetection (r : ScanRow) : Detection :=
  { timestamp := r.ts, rssi := r.rssi }

/-- The rows the timeline query delivers to the grouping loop: the rows in
the window (WHERE datetime(ts) >= datetime('now', '-hours hours'), one hour
being 3600 of our integer time units), ordered by address then ts, and
truncated by LIMIT 10000. -/
def windowRows (s : Store) (now : Int) (hours : Nat) : List ScanRow :=
  (List.insertionSort timelineRel
    (s.rows.filter (fun r => decide (now - 3600 * (hours : Int) ≤ r.ts)))).take 10000

/-- One iteration of the grouping loop (store.py lines 141-152) over the
devices dict, modelled in key-insertion order: a row for a known address
appends a detection to that entry, a row for a new address appends a fresh
entry holding one detection. -/
def addDetection (acc : List DeviceTimeline) (r : ScanRow) : List DeviceTimeline :=
  if ∃ d ∈ acc, d.address = r.address then
    acc.map (fun d =>
      if d.address = r.address then
        { d with detections := d.detections ++ [toDetection r] }
      else d)
  else
    acc ++ [{ address := r.address, name := displayName r,
              detections := [toDetection r] }]

/-- get_timeline_data (store.py, lines 120-157): group the windowed,
ordered, capped rows by address; list(devices.values()) preserves the dict's
key-insertion order.  The surrounding dict also echoes the hours argument,
which we drop. -/
def get_timeline_data (s : Store) (now : Int) (hours : Nat) :
    List DeviceTimeline :=
  (windowRows s now hours).foldl addDetection []

theorem addDetection_map_address (acc : List DeviceTimeline) (r : ScanRow) :
    (addDetection acc r).map (fun d => d.address) =
      if r.address ∈ acc.map (fun d => d.address) then
        acc.map (fun d => d.address)
      else acc.map (fun d => d.address) ++ [r.address] := by
  unfold addDetection
  by_cases h : ∃ d ∈ acc, d.address = r.address
  · rw [if_pos h, if_pos]
    · rw [List.map_map]
      refine List.map_congr_left ?_
      intro d _
      by_cases hd : d.address = r.address <;> simp [hd]
    · obtain ⟨d, hdm, hda⟩ := h
      exact List.mem_map.mpr ⟨d, hdm, hda⟩
  · rw [if_neg h, if_neg]
    · simp
    · intro hmem
      obtain ⟨d, hdm, hda⟩ := List.mem_map.mp hmem
      exact h ⟨d, hdm, hda⟩

theorem foldl_addDetection_map_address (rows : List ScanRow)
    (acc : List DeviceTimeline) :
    ((rows.foldl addDetection acc).map (fun d => d.address)) =
      (rows.map (fun r => r.address)).foldl
        (fun acc a => if a ∈ acc then acc else acc ++ [a])
        (acc.map (fun d => d.address)) := by
  induction rows generalizing acc with
  | nil => rfl
  | cons r rest ih =>
      rw [List.map_cons, List.foldl_cons, List.foldl_cons, ih,
        addDetection_map_address]

theorem addDetection_exists_self (acc : List DeviceTimeline) (r : ScanRow) :
    ∃ e ∈ addDetection acc r, e.address = r.address := by
  unfold addDetection
  by_cases h : ∃ d ∈ acc, d.address = r.address
  · rw [if_pos h]
    obtain ⟨d, hdm, hda⟩ := h
    refine ⟨{ d with detections := d.detections ++ [toDetection r] }, ?_, hda⟩
    exact List.mem_map.mpr ⟨d, hdm, by rw [if_pos hda]⟩
  · rw [if_neg h]
    exact ⟨_, List.mem_append_right _ (List.mem_singleton.mpr rfl), rfl⟩

theorem addDetection_keys_mono (acc : List DeviceTimeline) (r : ScanRow)
    (a : String) (h : ∃ e ∈ acc, e.address = a) :
    ∃ e ∈ addDetection acc r, e.address = a := by
  obtain ⟨e, he, hea⟩ := h
  unfold addDetection
  by_cases hex : ∃ d ∈ acc, d.address = r.address
  · rw [if_pos hex]
    by_cases her : e.address = r.address
    · refine ⟨{ e with detections := e.detections ++ [toDetection r] }, ?_, hea⟩
      exact List.mem_map.mpr ⟨e, he, by rw [if_pos her]⟩
    · exact ⟨e, List.mem_map.mpr ⟨e, he, by rw [if_neg her]⟩, hea⟩
  · rw [if_neg hex]
    exact ⟨e, List.mem_append_left _ he, hea⟩

theorem mem_addDetection (acc : List DeviceTimeline) (r : ScanRow)
    (d : DeviceTimeline) (hd : d ∈ addDetection acc r) :
    (∃ e ∈ acc, e.address = r.address ∧
        d = { e with detections := e.detections ++ [toDetection r] }) ∨
    (d ∈ acc ∧ d.address ≠ r.address) ∨
    ((¬ ∃ e ∈ acc, e.address = r.address) ∧
        d = { address := r.address, name := displayName r,
              detections := [toDetection r] }) := by
  unfold addDetection at hd
  by_cases h : ∃ e ∈ acc, e.address = r.address
  · rw [if_pos h] at hd
    obtain ⟨e, he, hde⟩ := List.mem_map.mp hd
    by_cases hea : e.address = r.address
    · rw [if_pos hea] at hde
      exact Or.inl ⟨e, he, hea, hde.symm⟩
    · rw [if_neg hea] at hde
      exact Or.inr (Or.inl ⟨hde ▸ he, hde ▸ hea⟩)
  · rw [if_neg h] at hd
    rcases List.mem_append.mp hd with hm | hv
    · exact Or.inr (Or.inl ⟨hm, fun contra => h ⟨d, hm, contra⟩⟩)
    · exact Or.inr (Or.inr ⟨h, List.mem_singleton.mp hv⟩)

theorem foldl_addDetection_det (rows : List ScanRow) (acc : List DeviceTimeline) :
    ∀ d ∈ rows.foldl addDetection acc,
      (∃ e ∈ acc, e.address = d.address ∧
          d.detections = e.detections ++
            (rows.filter (fun r => decide (r.address = d.address))).map
              toDetection) ∨
      ((¬ ∃ e ∈ acc, e.address = d.address) ∧
          d.detections = (rows.filter
              (fun r => decide (r.address = d.address))).map toDetection ∧
          d.detections ≠ []) := by
  induction rows generalizing acc with
  | nil =>
      intro d hd
      exact Or.inl ⟨d, hd, rfl, by simp⟩
  | cons r rest ih =>
      intro d hd
      rw [List.foldl_cons] at hd
      rcases ih (addDetection acc r) d hd with ⟨e, he, hea, hdet⟩ | ⟨hno, hdet, hne⟩
      · rcases mem_addDetection acc r e he with
          ⟨e₀, he₀, he₀r, heup⟩ | ⟨heacc, hener⟩ | ⟨hnone, henew⟩
        · have hdr : r.address = d.address := by
            rw [← hea, heup]
            exact he₀r.symm
          refine Or.inl ⟨e₀, he₀, ?_, ?_⟩
          · rw [← hea, heup]
          · rw [List.filter_cons, if_pos (by simpa using hdr), List.map_cons,
              hdet, heup]
            simp
        · have hdr : ¬ r.address = d.address := by
            rw [← hea]
            exact fun hc => hener hc.symm
          refine Or.inl ⟨e, heacc, hea, ?_⟩
          rw [List.filter_cons, if_neg (by simpa using hdr), hdet]
        · have hdr : r.address = d.address := by
            rw [← hea, henew]
          have hcons : d.detections = toDetection r ::
              (rest.filter (fun r => decide (r.address = d.address))).map
                toDetection := by
            rw [hdet, henew]
            rfl
          have hdet' : d.detections =
              ((r :: rest).filter
                (fun r => decide (r.address = d.address))).map toDetection := by
            rw [List.filter_cons, if_pos (by simpa using hdr), List.map_cons,
              ← hcons]
          refine Or.inr ⟨?_, hdet', by rw [hcons]; exact List.cons_ne_nil _ _⟩
          intro ⟨e₁, he₁, he₁a⟩
          exact hnone ⟨e₁, he₁, he₁a.trans hdr.symm⟩
      · have hdr : ¬ r.address = d.address := by
          intro hc
          obtain ⟨e₁, he₁, he₁a⟩ := addDetection_exists_self acc r
          exact hno ⟨e₁, he₁, he₁a.trans hc⟩
        refine Or.inr ⟨?_, ?_, hne⟩
        · intro ⟨e₁, he₁, he₁a⟩
          exact hno (addDetection_keys_mono acc r d.address ⟨e₁, he₁, he₁a⟩)
        · rw [List.filter_cons, if_neg (by simpa using hdr), hdet]

theorem sum_map_update (acc : List DeviceTimeline) (a : String) (x : Detection)
    (h : (acc.map (fun d => d.address)).Nodup) (hex : ∃ d ∈ acc, d.address = a) :
    ((acc.map (fun d =>
        if d.address = a then { d with detections := d.detections ++ [x] }
        else d)).map (fun d => d.detections.length)).sum =
      (acc.map (fun d => d.detections.length)).sum + 1 := by
  induction acc with
  | nil =>
      obtain ⟨d, hd, _⟩ := hex
      cases hd
  | cons e acc' ih =>
      rw [List.map_cons] at h
      obtain ⟨hnotin, hnd'⟩ := List.nodup_cons.mp h
      by_cases hea : e.address = a
      · have hrest : ∀ d ∈ acc', ¬ d.address = a := by
          intro d hd hda
          exact hnotin (by rw [hea, ← hda]; exact List.mem_map.mpr ⟨d, hd, rfl⟩)
        have hid : acc'.map (fun d =>
            if d.address = a then { d with detections := d.detections ++ [x] }
            else d) = acc' := by
          have := List.map_congr_left
            (fun d hd => if_neg (hrest d hd) :
              ∀ d ∈ acc', (if d.address = a
                then { d with detections := d.detections ++ [x] } else d) = d)
          rw [this, List.map_id']
        rw [List.map_cons, if_pos hea, hid, List.map_cons, List.map_cons,
          List.sum_cons, List.sum_cons]
        simp only [List.length_append, List.length_singleton]
        omega
      · have hex' : ∃ d ∈ acc', d.address = a := by
          obtain ⟨d, hd, hda⟩ := hex
          rcases List.mem_cons.mp hd with rfl | hd'
          · exact absurd hda hea
          · exact ⟨d, hd', hda⟩
        rw [List.map_cons, if_neg hea, List.map_cons, List.map_cons,
          List.sum_cons, List.sum_cons, ih hnd' hex']
        omega

theorem sum_detections_addDetection (acc : List DeviceTimeline) (r : ScanRow)
    (h : (acc.map (fun d => d.address)).Nodup) :
    ((addDetection acc r).map (fun d => d.detections.length)).sum =
      (acc.map (fun d => d.detections.length)).sum + 1 := by
  unfold addDetection
  by_cases hex : ∃ d ∈ acc, d.address = r.address
  · rw [if_pos hex]
    exact sum_map_update acc r.address (toDetection r) h hex
  · rw [if_neg hex]
    simp

theorem foldl_addDetection_sum (rows : List ScanRow) (acc : List DeviceTimeline)
    (h : (acc.map (fun d => d.address)).Nodup) :
    ((rows.foldl addDetection acc).map (fun d => d.detections.length)).sum =
      (acc.map (fun d => d.detections.length)).sum + rows.length := by
  induction rows generalizing acc with
  | nil => simp
  | cons r rest ih =>
      rw [List.foldl_cons]
      have h' : ((addDetection acc r).map (fun d => d.address)).Nodup := by
        rw [addDetection_map_address]
        by_cases hr : r.address ∈ acc.map (fun d => d.address)
        · rw [if_pos hr]
          exact h
        · rw [if_neg hr, List.nodup_append]
          exact ⟨h, by simp,
            fun x hx hxa => hr ((List.mem_singleton.mp hxa) ▸ hx)⟩
      rw [ih _ h', sum_detections_addDetection acc r h, List.length_cons]
      omega

/-- C8: under the operational invariant that no stored timestamp lies in
the future of now, get_timeline_data returns entries whose detections lists
are never empty, are ordered ascending by time, and lie within the window
[now - 3600 * hours, now]; a device appears only if it has a window event;
whenever the window holds at most 10,000 rows every windowed device appears;
the query processes at most 10,000 rows in total (the sum of all detection
counts is capped at 10,000); every detection of a device entry is the
(observedAt, signalStrength) of a stored window event of that device's
address; and whenever the window holds at most 10,000 rows, every stored
window event appears as a detection of the entry of its address — so the
result is exactly the window events grouped by address. -/
theorem C8_timeline_spec (s : Store) (now : Int) (hours : Nat)
    (hnow : ∀ r ∈ s.rows, r.ts ≤ now) :
    (∀ d ∈ get_timeline_data s now hours, d.detections ≠ []) ∧
    (∀ d ∈ get_timeline_data s now hours,
      List.Pairwise (fun x y : Detection => x.timestamp ≤ y.timestamp)
        d.detections) ∧
    (∀ d ∈ get_timeline_data s now hours, ∀ det ∈ d.detections,
      now - 3600 * (hours : Int) ≤ det.timestamp ∧ det.timestamp ≤ now) ∧
    (∀ d ∈ get_timeline_data s now hours, ∃ r ∈ s.rows,
      r.address = d.address ∧ now - 3600 * (hours : Int) ≤ r.ts) ∧
    ((s.rows.filter
        (fun r => decide (now - 3600 * (hours : Int) ≤ r.ts))).length ≤ 10000 →
      ∀ r ∈ s.rows, now - 3600 * (hours : Int) ≤ r.ts →
        ∃ d ∈ get_timeline_data s now hours, d.address = r.address) ∧
    ((get_timeline_data s now hours).map
      (fun d => d.detections.length)).sum ≤ 10000 ∧
    (∀ d ∈ get_timeline_data s now hours, ∀ det ∈ d.detections,
      ∃ r ∈ s.rows, r.address = d.address ∧
        now - 3600 * (hours : Int) ≤ r.ts ∧ toDetection r = det) ∧
    ((s.rows.filter
        (fun r => decide (now - 3600 * (hours : Int) ≤ r.ts))).length ≤ 10000 →
      ∀ r ∈ s.rows, now - 3600 * (hours : Int) ≤ r.ts →
        ∃ d ∈ get_timeline_data s now hours, d.address = r.address ∧
          toDetection r ∈ d.detections) := by
  have hchar : ∀ d ∈ get_timeline_data s now hours,
      d.detections = ((windowRows s now hours).filter
        (fun r => decide (r.address = d.address))).map toDetection ∧
      d.detections ≠ [] := by
    intro d hd
    rcases foldl_addDetection_det (windowRows s now hours) [] d hd with
      ⟨e, he, _⟩ | ⟨_, hdet, hne⟩
    · cases he
    · exact ⟨hdet, hne⟩
  have hWsub : ∀ x ∈ windowRows s now hours,
      x ∈ s.rows.filter (fun r => decide (now - 3600 * (hours : Int) ≤ r.ts)) := by
    intro x hx
    exact (List.perm_insertionSort timelineRel _).subset
      ((List.take_sublist 10000 _).subset hx)
  have hWsorted : List.Pairwise timelineRel (windowRows s now hours) :=
    (List.sorted_insertionSort timelineRel _).sublist (List.take_sublist 10000 _)
  have hfull : (s.rows.filter
        (fun r => decide (now - 3600 * (hours : Int) ≤ r.ts))).length ≤ 10000 →
      ∀ r ∈ s.rows, now - 3600 * (hours : Int) ≤ r.ts →
        ∃ d ∈ get_timeline_data s now hours, d.address = r.address ∧
          toDetection r ∈ d.detections := by
    intro hcap r hr hrw
    have hrF : r ∈ s.rows.filter
        (fun r => decide (now - 3600 * (hours : Int) ≤ r.ts)) :=
      List.mem_filter.mpr ⟨hr, decide_eq_true hrw⟩
    have hWall : windowRows s now hours = List.insertionSort timelineRel
        (s.rows.filter (fun r => decide (now - 3600 * (hours : Int) ≤ r.ts))) := by
      unfold windowRows
      refine List.take_of_length_le ?_
      rw [(List.perm_insertionSort timelineRel _).length_eq]
      exact hcap
    have hrW : r ∈ windowRows s now hours := by
      rw [hWall]
      exact (List.perm_insertionSort timelineRel _).symm.subset hrF
    have hkeys : ((get_timeline_data s now hours).map (fun d => d.address)) =
        distinctFirst ((windowRows s now hours).map (fun r => r.address)) := by
      unfold get_timeline_data distinctFirst
      rw [foldl_addDetection_map_address]
      rfl
    have hmem : r.address ∈
        (get_timeline_data s now hours).map (fun d => d.address) := by
      rw [hkeys]
      unfold distinctFirst
      rw [mem_foldl_distinct]
      exact Or.inr (List.mem_map.mpr ⟨r, hrW, rfl⟩)
    obtain ⟨d, hd, hda⟩ := List.mem_map.mp hmem
    refine ⟨d, hd, hda, ?_⟩
    rw [(hchar d hd).1]
    exact List.mem_map.mpr
      ⟨r, List.mem_filter.mpr ⟨hrW, decide_eq_true hda.symm⟩, rfl⟩
  refine ⟨?_, ?_, ?_, ?_, ?_, ?_, ?_, ?_⟩
  · intro d hd
    exact (hchar d hd).2
  · intro d hd
    rw [(hchar d hd).1]
    have hts : List.Pairwise (fun x y : ScanRow => x.ts ≤ y.ts)
        ((windowRows s now hours).filter
          (fun r => decide (r.address = d.address))) := by
      refine (hWsorted.filter _).imp_of_mem ?_
      intro x y hx hy hrel
      have hxa : x.address = d.address :=
        of_decide_eq_true (List.mem_filter.mp hx).2
      have hya : y.address = d.address :=
        of_decide_eq_true (List.mem_filter.mp hy).2
      rcases hrel with h | ⟨_, h2⟩
      · rw [hxa, hya] at h
        exact absurd h (lt_irrefl _)
      · rcases h2 with h2 | ⟨h2, _⟩
        · exact le_of_lt h2
        · exact le_of_eq h2
    exact List.pairwise_map.mpr (hts.imp fun h => h)
  · intro d hd det hdet
    rw [(hchar d hd).1] at hdet
    obtain ⟨row, hrow, rfl⟩ := List.mem_map.mp hdet
    have hrowF := hWsub row (List.mem_of_mem_filter hrow)
    obtain ⟨hrows, hwind⟩ := List.mem_filter.mp hrowF
    exact ⟨of_decide_eq_true hwind, hnow row hrows⟩
  · intro d hd
    obtain ⟨hdet, hne⟩ := hchar d hd
    have hfilne : (windowRows s now hours).filter
        (fun r => decide (r.address = d.address)) ≠ [] := by
      intro hnil
      apply hne
      rw [hdet, hnil]
      rfl
    obtain ⟨row, hrow⟩ := List.exists_mem_of_ne_nil _ hfilne
    have hrowF := hWsub row (List.mem_of_mem_filter hrow)
    obtain ⟨hrows, hwind⟩ := List.mem_filter.mp hrowF
    exact ⟨row, hrows, of_decide_eq_true (List.mem_filter.mp hrow).2,
      of_decide_eq_true hwind⟩
  · intro hcap r hr hrw
    obtain ⟨d, hd, hda, _⟩ := hfull hcap r hr hrw
    exact ⟨d, hd, hda⟩
  · have hsum := foldl_addDetection_sum (windowRows s now hours) [] (by simp)
    have hlen : (windowRows s now hours).length ≤ 10000 := by
      unfold windowRows
      rw [List.length_take]
      exact Nat.min_le_left _ _
    calc ((get_timeline_data s now hours).map
          (fun d => d.detections.length)).sum
        = (windowRows s now hours).length := by
          unfold get_timeline_data
          rw [hsum]
          simp
      _ ≤ 10000 := hlen
  · intro d hd det hdet
    rw [(hchar d hd).1] at hdet
    obtain ⟨row, hrow, hdet'⟩ := List.mem_map.mp hdet
    have haddr : row.address = d.address :=
      of_decide_eq_true (List.mem_filter.mp hrow).2
    have hrowF := hWsub row (List.mem_of_mem_filter hrow)
    obtain ⟨hrows, hwind⟩ := List.mem_filter.mp hrowF
    exact ⟨row, hrows, haddr, of_decide_eq_true hwind, hdet'⟩
  · exact hfull

/-- A store with two devices in the last hour of time 100 and one event far
in the past (outside the window). -/
def storeW : Store :=
  { rows := [{ id := 0, address := "A", name := some "devA", rssi := -40,
               device_type := "unknown", ts := 100 },
             { id := 1, address := "A", name := some "devA", rssi := -42,
               device_type := "unknown", ts := 50 },
             { id := 2, address := "B", name := none, rssi := -50,
               device_type := "unknown", ts := -4000 }]
    nextId := 3 }

/-- C8, witnessed on storeW at now = 100 with a one-hour window. -/
theorem C8_witness :
    (∀ d ∈ get_timeline_data storeW 100 1, d.detections ≠ []) ∧
    (∀ d ∈ get_timeline_data storeW 100 1,
      List.Pairwise (fun x y : Detection => x.timestamp ≤ y.timestamp)
        d.detections) ∧
    (∀ d ∈ get_timeline_data storeW 100 1, ∀ det ∈ d.detections,
      (100 : Int) - 3600 * ((1 : Nat) : Int) ≤ det.timestamp ∧
        det.timestamp ≤ 100) ∧
    (∀ d ∈ get_timeline_data storeW 100 1, ∃ r ∈ storeW.rows,
      r.address = d.address ∧ (100 : Int) - 3600 * ((1 : Nat) : Int) ≤ r.ts) ∧
    ((storeW.rows.filter
        (fun r => decide ((100 : Int) - 3600 * ((1 : Nat) : Int) ≤ r.ts))).length
          ≤ 10000 →
      ∀ r ∈ storeW.rows, (100 : Int) - 3600 * ((1 : Nat) : Int) ≤ r.ts →
        ∃ d ∈ get_timeline_data storeW 100 1, d.address = r.address) ∧
    ((get_timeline_data storeW 100 1).map
      (fun d => d.detections.length)).sum ≤ 10000 ∧
    (∀ d ∈ get_timeline_data storeW 100 1, ∀ det ∈ d.detections,
      ∃ r ∈ storeW.rows, r.address = d.address ∧
        (100 : Int) - 3600 * ((1 : Nat) : Int) ≤ r.ts ∧ toDetection r = det) ∧
    ((storeW.rows.filter
        (fun r => decide ((100 : Int) - 3600 * ((1 : Nat) : Int) ≤ r.ts))).length
          ≤ 10000 →
      ∀ r ∈ storeW.rows, (100 : Int) - 3600 * ((1 : Nat) : Int) ≤ r.ts →
        ∃ d ∈ get_timeline_data storeW 100 1, d.address = r.address ∧
          toDetection r ∈ d.detections) :=
  C8_timeline_spec storeW 100 1 (by decide)

end Bluemon
